import Mathlib

/-
Verification of the bucket-bar annotation client.

This file embeds, in Lean 4:

* the `PositionClusterer` (`computeBuckets`) together with its input
  validation boundary.  The clusterer's implementation file
  (`src/annotator/util/buckets`) is not part of the source tree we were
  given — only its caller `src/annotator/bucket-bar.tsx` is — so those
  definitions are modelled from the specification's algorithm description
  (spec §4.1, §7); each such definition says so in its doc comment.
* the `BucketBar` controller glue from `src/annotator/bucket-bar.tsx`,
  with DOM rendering abstracted to "the props last handed to the
  `Buckets` component".
* the `getLink` selector from `src/sidebar/store/modules/links.js`,
  with the out-of-scope `replaceURLParams` helper abstracted as a
  function parameter.
* the `onAddTag` / tag-list update logic of the `AnnotationEditor`
  component.

Pixel coordinates (`top`, `bottom`, `viewportHeight`, bucket
`position`) are modelled as rationals; JS `Set` insertion order is
modelled as first-seen de-duplicated lists; a JS `throw` is modelled as
`Except.error`.
-/

/-- An anchor's screen position: the annotation tags sharing the anchor and
its vertical extent in viewport coordinates (spec §3). -/
structure AnchorPosition where
  tags : List String
  top : ℚ
  bottom : ℚ
deriving DecidableEq

/-- A rendered bucket: representative vertical position and the merged,
de-duplicated tags (spec §3). -/
structure Bucket where
  position : ℚ
  tags : List String
deriving DecidableEq

/-- Result of `computeBuckets`: overflow tag sets and ordered buckets. -/
structure Buckets where
  above : List String
  below : List String
  buckets : List Bucket
deriving DecidableEq

/-- Modelled from the spec: an anchor is fully above the viewport when
`bottom < 0` (spec §4.1 step 1). -/
def offscreenAbove (a : AnchorPosition) : Bool :=
  decide (a.bottom < 0)

/-- Modelled from the spec: an anchor is fully below the viewport when
`top > viewportHeight`; the partition of §4.1 step 1 is an if/else chain,
so the fully-above test takes precedence. -/
def offscreenBelow (viewportHeight : ℚ) (a : AnchorPosition) : Bool :=
  !offscreenAbove a && decide (viewportHeight < a.top)

/-- Modelled from the spec: anchors neither fully above nor fully below are
at least partially visible and become clustering candidates; straddling or
touching an edge counts as visible (spec §4.1 step 1, §8). -/
def visibleAnchor (viewportHeight : ℚ) (a : AnchorPosition) : Bool :=
  !offscreenAbove a && decide (a.top ≤ viewportHeight)

/-- Add one tag to a first-seen de-duplicated tag list (JS `Set.add`). -/
def addTag (acc : List String) (t : String) : List String :=
  if t ∈ acc then acc else acc ++ [t]

/-- Add a list of tags, in order, to a de-duplicated tag list. -/
def addTags (acc : List String) (ts : List String) : List String :=
  ts.foldl addTag acc

/-- Union of the tags of a list of anchors, duplicates removed, first-seen
order (spec §3: overflow sets and bucket tag unions). -/
def collectTags (anchors : List AnchorPosition) : List String :=
  anchors.foldl (fun acc a => addTags acc a.tags) []

/-- Insert an anchor into a list sorted by `top`, before the first element
with a greater-or-equal `top`; used by the stable sort of spec §4.1 step 2. -/
def insertByTop (a : AnchorPosition) : List AnchorPosition → List AnchorPosition
  | [] => [a]
  | b :: rest => if a.top ≤ b.top then a :: b :: rest else b :: insertByTop a rest

/-- Modelled from the spec: stable sort of the visible candidates by `top`
ascending, ties keeping original input order (spec §4.1 step 2). -/
def sortByTop (l : List AnchorPosition) : List AnchorPosition :=
  l.foldr insertByTop []

/-- The open bucket of the sweep: minimum `top`, maximum `bottom` and the
de-duplicated tags of the anchors merged so far. -/
structure WorkingBucket where
  minTop : ℚ
  maxBottom : ℚ
  tags : List String
deriving DecidableEq

/-- Modelled from the spec: a bucket's running representative position is
the midpoint of the minimum `top` and the maximum `bottom` of its merged
anchors (spec §4.1 step 4; the parenthetical "clamped conceptually" is left
unspecified by the spec and is not modelled). -/
def bucketPos (wb : WorkingBucket) : ℚ :=
  (wb.minTop + wb.maxBottom) / 2

/-- Open a fresh working bucket holding a single anchor. -/
def openBucket (a : AnchorPosition) : WorkingBucket :=
  { minTop := a.top, maxBottom := a.bottom, tags := addTags [] a.tags }

/-- Merge one more anchor into the open working bucket. -/
def mergeAnchor (wb : WorkingBucket) (a : AnchorPosition) : WorkingBucket :=
  { minTop := min wb.minTop a.top
    maxBottom := max wb.maxBottom a.bottom
    tags := addTags wb.tags a.tags }

/-- Close a working bucket into an output bucket (spec §4.1 step 4). -/
def closeBucket (wb : WorkingBucket) : Bucket :=
  { position := bucketPos wb, tags := wb.tags }

/-- Modelled from the spec: the sweep merges an anchor into the current open
bucket exactly when its `top` lies within the proximity threshold of the
bucket's running representative position (spec §4.1 step 3). -/
def canMerge (threshold : ℚ) (wb : WorkingBucket) (a : AnchorPosition) : Bool :=
  decide (|a.top - bucketPos wb| < threshold)

/-- Modelled from the spec: the greedy left-to-right sweep over the sorted
candidates, with `wb` the currently open bucket (spec §4.1 step 3). -/
def sweepFrom (threshold : ℚ) (wb : WorkingBucket) :
    List AnchorPosition → List WorkingBucket
  | [] => [wb]
  | a :: rest =>
    if canMerge threshold wb a then sweepFrom threshold (mergeAnchor wb a) rest
    else wb :: sweepFrom threshold (openBucket a) rest

/-- Modelled from the spec: run the sweep over a candidate list, producing
the working buckets in emission order. -/
def sweepWB (threshold : ℚ) : List AnchorPosition → List WorkingBucket
  | [] => []
  | a :: rest => sweepFrom threshold (openBucket a) rest

/-- Modelled from the spec: `computeBuckets` — partition the anchors against
`[0, viewportHeight]`, collect the overflow tag sets, stable-sort the
visible candidates by `top` and sweep them into buckets (spec §4.1).  The
implementation file `src/annotator/util/buckets` is not in the given source
tree, so this definition follows the spec's algorithm; the proximity
threshold is the configurable constant of spec §9, passed as a parameter. -/
def computeBuckets (threshold : ℚ) (positions : List AnchorPosition)
    (viewportHeight : ℚ) : Buckets :=
  { above := collectTags (positions.filter offscreenAbove)
    below := collectTags (positions.filter (offscreenBelow viewportHeight))
    buckets :=
      (sweepWB threshold
        (sortByTop (positions.filter (visibleAnchor viewportHeight)))).map
        closeBucket }

/-- Modelled from the spec: a well-formed anchor satisfies `top <= bottom`
(spec §3 invariant). -/
def validAnchor (a : AnchorPosition) : Bool :=
  decide (a.top ≤ a.bottom)

/-- Modelled from the spec: a well-formed call has only well-formed anchors
and a non-negative viewport height (spec §7; `NaN` heights do not exist in
the rational-number embedding). -/
def validInput (positions : List AnchorPosition) (viewportHeight : ℚ) : Bool :=
  positions.all validAnchor && decide (0 ≤ viewportHeight)

/-- Modelled from the spec: the validation boundary of spec §7 — malformed
input is rejected with a validation error, never clamped or dropped;
well-formed input is passed through to the total clustering function. -/
def computeBucketsChecked (threshold : ℚ) (positions : List AnchorPosition)
    (viewportHeight : ℚ) : Except String Buckets :=
  if validInput positions viewportHeight then
    Except.ok (computeBuckets threshold positions viewportHeight)
  else
    Except.error "invalid anchor positions or viewport height"

/-- The `BucketBar` controller, with DOM rendering abstracted to the props
last handed to the `Buckets` component (`src/annotator/bucket-bar.tsx`). -/
structure BucketBarModel where
  rendered : Buckets
deriving DecidableEq

/-- `BucketBar.update(positions)`: recompute the buckets with the clusterer
and re-render (`src/annotator/bucket-bar.tsx`, `update`).  The source call
site reads the current viewport height from ambient window state; the
embedding passes it explicitly. -/
def BucketBar.update (threshold viewportHeight : ℚ)
    (positions : List AnchorPosition) : BucketBarModel :=
  { rendered := computeBuckets threshold positions viewportHeight }

/-- The `BucketBar` constructor: store the callbacks, then immediately
render with an empty position list (`src/annotator/bucket-bar.tsx`,
`constructor`, "Immediately render the bucket bar"). -/
def BucketBar.construct (threshold viewportHeight : ℚ) : BucketBarModel :=
  BucketBar.update threshold viewportHeight []

/-- The `getLink` selector of `src/sidebar/store/modules/links.js`.  The
links state is `none` while links have not been fetched; a template map is
an association list; the out-of-scope `replaceURLParams` helper is a
parameter returning the substituted URL and the unconsumed params; a JS
`throw` is `Except.error`.  A template that is absent or the empty string
is falsy in JS, so both trigger the "Unknown link" error. -/
def getLink (replaceURLParams : String → List (String × String) →
      String × List (String × String))
    (state : Option (List (String × String))) (linkName : String)
    (params : List (String × String)) : Except String String :=
  match state with
  | none => Except.ok ""
  | some links =>
    match links.lookup linkName with
    | none => Except.error ("Unknown link \"" ++ linkName ++ "\"")
    | some template =>
      if template = "" then
        Except.error ("Unknown link \"" ++ linkName ++ "\"")
      else
        let r := replaceURLParams template params
        if r.2 = [] then Except.ok r.1
        else
          Except.error
            ("Unused parameters: " ++ String.intercalate ", " (r.2.map Prod.fst))

/-- `onAddTag` of the `AnnotationEditor` component: reject an empty or
duplicate tag leaving the draft's tags unchanged, otherwise append it; the
returned flag is the function's return value and the list is the draft's
tag list afterwards. -/
def onAddTag (tags : List String) (newTag : String) : Bool × List String :=
  if newTag = "" ∨ newTag ∈ tags then (false, tags)
  else (true, tags ++ [newTag])

/-- Two tag lists have no tag in common. -/
def TagsDisjoint (u v : List String) : Prop := ∀ t ∈ u, t ∉ v

/-! ### Tag-list lemmas -/

theorem mem_addTag {acc : List String} {t s : String} :
    s ∈ addTag acc t ↔ s ∈ acc ∨ s = t := by
  unfold addTag
  split
  · rename_i hmem
    constructor
    · exact Or.inl
    · rintro (h | rfl)
      · exact h
      · exact hmem
  · simp

theorem mem_addTags {acc ts : List String} {s : String} :
    s ∈ addTags acc ts ↔ s ∈ acc ∨ s ∈ ts := by
  induction ts generalizing acc with
  | nil => simp [addTags]
  | cons t rest ih =>
    show s ∈ addTags (addTag acc t) rest ↔ _
    rw [ih, mem_addTag]
    simp [or_assoc]

theorem mem_foldl_addTags {l : List AnchorPosition} {acc : List String} {t : String} :
    t ∈ l.foldl (fun acc a => addTags acc a.tags) acc ↔
      t ∈ acc ∨ ∃ a ∈ l, t ∈ a.tags := by
  induction l generalizing acc with
  | nil => simp
  | cons a rest ih =>
    show t ∈ rest.foldl _ (addTags acc a.tags) ↔ _
    rw [ih, mem_addTags]
    simp [or_assoc]

theorem mem_collectTags {l : List AnchorPosition} {t : String} :
    t ∈ collectTags l ↔ ∃ a ∈ l, t ∈ a.tags := by
  unfold collectTags
  rw [mem_foldl_addTags]
  simp

/-! ### Stable sort lemmas -/

theorem insertByTop_perm (a : AnchorPosition) (l : List AnchorPosition) :
    (insertByTop a l).Perm (a :: l) := by
  induction l with
  | nil => rfl
  | cons b rest ih =>
    unfold insertByTop
    split
    · exact List.Perm.refl _
    · exact (ih.cons b).trans (List.Perm.swap a b rest)

theorem sortByTop_perm (l : List AnchorPosition) : (sortByTop l).Perm l := by
  induction l with
  | nil => rfl
  | cons a rest ih =>
    show (insertByTop a (sortByTop rest)).Perm _
    exact (insertByTop_perm a (sortByTop rest)).trans (ih.cons a)

theorem mem_insertByTop {a x : AnchorPosition} {l : List AnchorPosition} :
    x ∈ insertByTop a l ↔ x = a ∨ x ∈ l := by
  rw [(insertByTop_perm a l).mem_iff]
  simp

theorem insertByTop_sorted (a : AnchorPosition) {l : List AnchorPosition}
    (h : l.Pairwise (fun x y => x.top ≤ y.top)) :
    (insertByTop a l).Pairwise (fun x y => x.top ≤ y.top) := by
  induction l with
  | nil => simp [insertByTop]
  | cons b rest ih =>
    rw [List.pairwise_cons] at h
    unfold insertByTop
    split
    · rename_i hab
      rw [List.pairwise_cons]
      refine ⟨?_, List.pairwise_cons.mpr h⟩
      intro y hy
      rcases List.mem_cons.mp hy with rfl | hy
      · exact hab
      · exact le_trans hab (h.1 y hy)
    · rename_i hab
      push_neg at hab
      rw [List.pairwise_cons]
      refine ⟨?_, ih h.2⟩
      intro y hy
      rcases mem_insertByTop.mp hy with rfl | hy
      · exact le_of_lt hab
      · exact h.1 y hy

theorem sortByTop_sorted (l : List AnchorPosition) :
    (sortByTop l).Pairwise (fun x y => x.top ≤ y.top) := by
  induction l with
  | nil => simp [sortByTop]
  | cons a rest ih => exact insertByTop_sorted a ih

theorem filter_insertByTop (a : AnchorPosition) (l : List AnchorPosition) (q : ℚ) :
    (insertByTop a l).filter (fun x => decide (x.top = q)) =
      if a.top = q then a :: l.filter (fun x => decide (x.top = q))
      else l.filter (fun x => decide (x.top = q)) := by
  induction l with
  | nil =>
    by_cases haq : a.top = q
    · simp [insertByTop, List.filter_cons, haq]
    · simp [insertByTop, List.filter_cons, haq]
  | cons b rest ih =>
    unfold insertByTop
    split
    · rename_i hab
      by_cases haq : a.top = q
      · simp [List.filter_cons, haq]
      · simp [List.filter_cons, haq]
    · rename_i hab
      push_neg at hab
      by_cases hbq : b.top = q
      · have haq : ¬ a.top = q := by
          intro h; rw [h] at hab; exact absurd hbq (ne_of_lt hab)
        simp [List.filter_cons, hbq, ih, haq]
      · simp [List.filter_cons, hbq, ih]

theorem sortByTop_filter_top (l : List AnchorPosition) (q : ℚ) :
    (sortByTop l).filter (fun x => decide (x.top = q)) =
      l.filter (fun x => decide (x.top = q)) := by
  induction l with
  | nil => rfl
  | cons a rest ih =>
    show (insertByTop a (sortByTop rest)).filter _ = _
    rw [filter_insertByTop]
    by_cases haq : a.top = q
    · simp [List.filter_cons, haq, ih]
    · simp [List.filter_cons, haq, ih]

/-! ### Sweep membership lemmas -/

theorem tags_openBucket {a : AnchorPosition} {t : String} :
    t ∈ (openBucket a).tags ↔ t ∈ a.tags := by
  simp [openBucket, mem_addTags]

theorem tags_mergeAnchor {wb : WorkingBucket} {a : AnchorPosition} {t : String} :
    t ∈ (mergeAnchor wb a).tags ↔ t ∈ wb.tags ∨ t ∈ a.tags := by
  simp [mergeAnchor, mem_addTags]

theorem mem_tags_sweepFrom {threshold : ℚ} {wb : WorkingBucket}
    {xs : List AnchorPosition} {t : String} :
    (∃ b ∈ sweepFrom threshold wb xs, t ∈ b.tags) ↔
      t ∈ wb.tags ∨ ∃ a ∈ xs, t ∈ a.tags := by
  induction xs generalizing wb with
  | nil => simp [sweepFrom]
  | cons a rest ih =>
    unfold sweepFrom
    split
    · rw [ih]
      rw [tags_mergeAnchor]
      simp [or_assoc]
    · simp only [List.mem_cons, List.mem_cons]
      constructor
      · rintro ⟨b, hb | hb, htb⟩
        · subst hb; exact Or.inl htb
        · rcases ih.mp ⟨b, hb, htb⟩ with h | ⟨a', ha', ht'⟩
          · exact Or.inr ⟨a, Or.inl rfl, tags_openBucket.mp h⟩
          · exact Or.inr ⟨a', Or.inr ha', ht'⟩
      · rintro (h | ⟨a', ha' | ha', ht'⟩)
        · exact ⟨wb, Or.inl rfl, h⟩
        · subst ha'
          obtain ⟨b, hb, htb⟩ := ih.mpr (Or.inl (tags_openBucket.mpr ht'))
          exact ⟨b, Or.inr hb, htb⟩
        · obtain ⟨b, hb, htb⟩ := ih.mpr (Or.inr ⟨a', ha', ht'⟩)
          exact ⟨b, Or.inr hb, htb⟩

theorem mem_tags_sweepWB {threshold : ℚ} {xs : List AnchorPosition} {t : String} :
    (∃ b ∈ sweepWB threshold xs, t ∈ b.tags) ↔ ∃ a ∈ xs, t ∈ a.tags := by
  cases xs with
  | nil => simp [sweepWB]
  | cons a rest =>
    show (∃ b ∈ sweepFrom threshold (openBucket a) rest, t ∈ b.tags) ↔ _
    rw [mem_tags_sweepFrom, tags_openBucket]
    simp

/-! ### Characterization of the three destinations -/

theorem mem_above_iff {threshold viewportHeight : ℚ} {ps : List AnchorPosition}
    {t : String} :
    t ∈ (computeBuckets threshold ps viewportHeight).above ↔
      ∃ a ∈ ps, offscreenAbove a = true ∧ t ∈ a.tags := by
  show t ∈ collectTags (ps.filter offscreenAbove) ↔ _
  rw [mem_collectTags]
  constructor
  · rintro ⟨a, ha, ht⟩
    rcases List.mem_filter.mp ha with ⟨hmem, hp⟩
    exact ⟨a, hmem, hp, ht⟩
  · rintro ⟨a, hmem, hp, ht⟩
    exact ⟨a, List.mem_filter.mpr ⟨hmem, hp⟩, ht⟩

theorem mem_below_iff {threshold viewportHeight : ℚ} {ps : List AnchorPosition}
    {t : String} :
    t ∈ (computeBuckets threshold ps viewportHeight).below ↔
      ∃ a ∈ ps, offscreenBelow viewportHeight a = true ∧ t ∈ a.tags := by
  show t ∈ collectTags (ps.filter (offscreenBelow viewportHeight)) ↔ _
  rw [mem_collectTags]
  constructor
  · rintro ⟨a, ha, ht⟩
    rcases List.mem_filter.mp ha with ⟨hmem, hp⟩
    exact ⟨a, hmem, hp, ht⟩
  · rintro ⟨a, hmem, hp, ht⟩
    exact ⟨a, List.mem_filter.mpr ⟨hmem, hp⟩, ht⟩

theorem mem_bucketTags_iff {threshold viewportHeight : ℚ}
    {ps : List AnchorPosition} {t : String} :
    (∃ b ∈ (computeBuckets threshold ps viewportHeight).buckets, t ∈ b.tags) ↔
      ∃ a ∈ ps, visibleAnchor viewportHeight a = true ∧ t ∈ a.tags := by
  show (∃ b ∈ (sweepWB threshold
      (sortByTop (ps.filter (visibleAnchor viewportHeight)))).map closeBucket,
      t ∈ b.tags) ↔ _
  constructor
  · rintro ⟨b, hb, htb⟩
    rcases List.mem_map.mp hb with ⟨wb, hwb, rfl⟩
    obtain ⟨a, ha, ht⟩ := mem_tags_sweepWB.mp ⟨wb, hwb, htb⟩
    have ha' := (sortByTop_perm _).mem_iff.mp ha
    rcases List.mem_filter.mp ha' with ⟨hmem, hp⟩
    exact ⟨a, hmem, hp, ht⟩
  · rintro ⟨a, hmem, hp, ht⟩
    have ha : a ∈ sortByTop (ps.filter (visibleAnchor viewportHeight)) :=
      (sortByTop_perm _).mem_iff.mpr (List.mem_filter.mpr ⟨hmem, hp⟩)
    obtain ⟨wb, hwb, htb⟩ := mem_tags_sweepWB.mpr ⟨a, ha, ht⟩
    exact ⟨closeBucket wb, List.mem_map.mpr ⟨wb, hwb, rfl⟩, htb⟩

/-! ### Disjointness of the destinations -/

theorem tagsDisjoint_symm : Symmetric TagsDisjoint := by
  intro u v h t htv htu
  exact h t htu htv

theorem tagsDisjoint_of_mem_imp {u u' w : List String}
    (himp : ∀ t, t ∈ u → t ∈ u') (h : TagsDisjoint u' w) : TagsDisjoint u w :=
  fun t ht => h t (himp t ht)

theorem tagsDisjoint_addTags {u v w : List String}
    (hu : TagsDisjoint u w) (hv : TagsDisjoint v w) :
    TagsDisjoint (addTags u v) w := by
  intro t ht
  rcases mem_addTags.mp ht with h | h
  · exact hu t h
  · exact hv t h

/-- In a pairwise "incompatible" list, two members that fail the relation in
both directions are the same member. -/
theorem mem_unique_of_pairwise {α : Type} {R : α → α → Prop} {l : List α}
    (hp : l.Pairwise R) {x y : α} (hx : x ∈ l) (hy : y ∈ l)
    (hxy : ¬ R x y) (hyx : ¬ R y x) : x = y := by
  rw [List.mem_iff_get] at hx hy
  obtain ⟨i, rfl⟩ := hx
  obtain ⟨j, rfl⟩ := hy
  rcases lt_trichotomy i j with h | h | h
  · exact absurd (List.pairwise_iff_get.mp hp i j h) hxy
  · rw [h]
  · exact absurd (List.pairwise_iff_get.mp hp j i h) hyx

theorem pairwise_tagsDisjoint_sweepFrom {threshold : ℚ} {wb : WorkingBucket}
    {xs : List AnchorPosition}
    (hp : (wb.tags :: xs.map AnchorPosition.tags).Pairwise TagsDisjoint) :
    ((sweepFrom threshold wb xs).map WorkingBucket.tags).Pairwise TagsDisjoint := by
  induction xs generalizing wb with
  | nil => simp [sweepFrom]
  | cons a rest ih =>
    rw [List.map_cons, List.pairwise_cons] at hp
    obtain ⟨hwb, hrest⟩ := hp
    rw [List.pairwise_cons] at hrest
    obtain ⟨ha, hrest'⟩ := hrest
    unfold sweepFrom
    split
    · apply ih
      rw [List.pairwise_cons]
      refine ⟨?_, hrest'⟩
      intro u hu
      apply tagsDisjoint_addTags
      · exact hwb u (List.mem_cons_of_mem _ hu)
      · exact ha u hu
    · rw [List.map_cons, List.pairwise_cons]
      constructor
      · intro u hu
        rcases List.mem_map.mp hu with ⟨b, hb, rfl⟩
        intro t htwb htb
        rcases mem_tags_sweepFrom.mp ⟨b, hb, htb⟩ with h | ⟨a', ha', ht'⟩
        · exact hwb a.tags (List.mem_cons_self _ _) t htwb (tags_openBucket.mp h)
        · exact hwb a'.tags (List.mem_cons_of_mem _ (List.mem_map_of_mem _ ha'))
            t htwb ht'
      · apply ih
        rw [List.pairwise_cons]
        refine ⟨?_, hrest'⟩
        intro u hu
        exact tagsDisjoint_of_mem_imp (fun t ht => tags_openBucket.mp ht) (ha u hu)

theorem pairwise_tagsDisjoint_sweepWB {threshold : ℚ} {xs : List AnchorPosition}
    (hp : (xs.map AnchorPosition.tags).Pairwise TagsDisjoint) :
    ((sweepWB threshold xs).map WorkingBucket.tags).Pairwise TagsDisjoint := by
  cases xs with
  | nil => simp [sweepWB]
  | cons a rest =>
    apply pairwise_tagsDisjoint_sweepFrom
    rw [List.map_cons, List.pairwise_cons] at hp
    rw [List.pairwise_cons]
    refine ⟨?_, hp.2⟩
    intro u hu
    exact tagsDisjoint_of_mem_imp (fun t ht => tags_openBucket.mp ht) (hp.1 u hu)

theorem buckets_pairwise_tagsDisjoint {threshold viewportHeight : ℚ}
    {ps : List AnchorPosition}
    (hd : (ps.map AnchorPosition.tags).Pairwise TagsDisjoint) :
    (computeBuckets threshold ps viewportHeight).buckets.Pairwise
      (fun b b' => TagsDisjoint b.tags b'.tags) := by
  have hfil : ((ps.filter (visibleAnchor viewportHeight)).map
      AnchorPosition.tags).Pairwise TagsDisjoint := by
    rw [List.pairwise_map] at hd ⊢
    exact hd.sublist (List.filter_sublist ps)
  have hsort : ((sortByTop (ps.filter (visibleAnchor viewportHeight))).map
      AnchorPosition.tags).Pairwise TagsDisjoint := by
    rw [List.pairwise_map] at hfil ⊢
    refine ((sortByTop_perm _).pairwise_iff ?_).mpr hfil
    intro x y h
    exact tagsDisjoint_symm h
  have hsw := @pairwise_tagsDisjoint_sweepWB threshold _ hsort
  show ((sweepWB threshold _).map closeBucket).Pairwise _
  rw [List.pairwise_map]
  rw [List.pairwise_map] at hsw
  exact hsw

/-! ### Emission order of the sweep -/

theorem minTop_lower_sweepFrom {threshold : ℚ} {wb : WorkingBucket}
    {xs : List AnchorPosition} {m : ℚ} (hwb : m ≤ wb.minTop)
    (hxs : ∀ x ∈ xs, m ≤ x.top) :
    ∀ b ∈ sweepFrom threshold wb xs, m ≤ b.minTop := by
  induction xs generalizing wb with
  | nil =>
    intro b hb
    rw [sweepFrom] at hb
    rcases List.mem_singleton.mp hb with rfl
    exact hwb
  | cons a rest ih =>
    intro b hb
    rw [sweepFrom] at hb
    split at hb
    · refine ih ?_ (fun x hx => hxs x (List.mem_cons_of_mem _ hx)) b hb
      exact le_min hwb (hxs a (List.mem_cons_self _ _))
    · rcases List.mem_cons.mp hb with rfl | hb
      · exact hwb
      · exact ih (show m ≤ (openBucket a).minTop from hxs a (List.mem_cons_self _ _))
          (fun x hx => hxs x (List.mem_cons_of_mem _ hx)) b hb

theorem minTop_sorted_sweepFrom {threshold : ℚ} {wb : WorkingBucket}
    {xs : List AnchorPosition}
    (hs : xs.Pairwise (fun x y => x.top ≤ y.top))
    (hwb : ∀ x ∈ xs, wb.minTop ≤ x.top) :
    ((sweepFrom threshold wb xs).map WorkingBucket.minTop).Pairwise (· ≤ ·) := by
  induction xs generalizing wb with
  | nil => simp [sweepFrom]
  | cons a rest ih =>
    rw [List.pairwise_cons] at hs
    rw [sweepFrom]
    split
    · apply ih hs.2
      intro x hx
      calc (mergeAnchor wb a).minTop ≤ wb.minTop := min_le_left _ _
        _ ≤ x.top := hwb x (List.mem_cons_of_mem _ hx)
    · rw [List.map_cons, List.pairwise_cons]
      constructor
      · intro q hq
        rcases List.mem_map.mp hq with ⟨b, hb, rfl⟩
        have hlow : ∀ x ∈ rest, a.top ≤ x.top := hs.1
        have := minTop_lower_sweepFrom (le_refl (openBucket a).minTop) hlow b hb
        calc wb.minTop ≤ a.top := hwb a (List.mem_cons_self _ _)
          _ ≤ b.minTop := this
      · exact ih hs.2 (fun x hx => hs.1 x hx)

theorem minTop_sorted_sweepWB {threshold : ℚ} {xs : List AnchorPosition}
    (hs : xs.Pairwise (fun x y => x.top ≤ y.top)) :
    ((sweepWB threshold xs).map WorkingBucket.minTop).Pairwise (· ≤ ·) := by
  cases xs with
  | nil => simp [sweepWB]
  | cons a rest =>
    rw [List.pairwise_cons] at hs
    exact minTop_sorted_sweepFrom hs.2 (fun x hx => hs.1 x hx)

/-! ### Per-anchor uniqueness under pairwise-disjoint tags -/

theorem anchor_unique {ps : List AnchorPosition}
    (hd : (ps.map AnchorPosition.tags).Pairwise TagsDisjoint)
    {a a' : AnchorPosition} (ha : a ∈ ps) (ha' : a' ∈ ps)
    {t : String} (ht : t ∈ a.tags) (ht' : t ∈ a'.tags) : a = a' := by
  rw [List.pairwise_map] at hd
  exact mem_unique_of_pairwise hd ha ha'
    (fun h => h t ht ht') (fun h => h t ht' ht)

/-! ### Partition test lemmas -/

theorem offscreenAbove_iff {a : AnchorPosition} :
    offscreenAbove a = true ↔ a.bottom < 0 := by
  simp [offscreenAbove]

theorem offscreenBelow_iff {h : ℚ} {a : AnchorPosition} :
    offscreenBelow h a = true ↔ ¬ a.bottom < 0 ∧ h < a.top := by
  simp [offscreenBelow, offscreenAbove]

theorem visibleAnchor_iff {h : ℚ} {a : AnchorPosition} :
    visibleAnchor h a = true ↔ ¬ a.bottom < 0 ∧ a.top ≤ h := by
  simp [visibleAnchor, offscreenAbove]

/-! ### Claim theorems -/

/-- C7: for every valid viewport height `h > 0`, `computeBuckets` applied to
the empty anchor list returns an empty bucket list and empty `above` and
`below` overflow sets. -/
theorem emptyInputEmptyOutput (threshold h : ℚ) (_hh : 0 < h) :
    computeBuckets threshold [] h = { above := [], below := [], buckets := [] } :=
  rfl

/-- Witness for C7 at `threshold = 60`, `h = 1000`. -/
theorem emptyInputEmptyOutput_witness :
    computeBuckets 60 [] 1000 = { above := [], below := [], buckets := [] } :=
  emptyInputEmptyOutput 60 1000 (by norm_num)

/-- C8: constructing a `BucketBar` performs an initial render with an empty
position list, so the bar starts empty (and, being a total function of its
inputs, construction cannot fail on zero anchors). -/
theorem constructRendersEmpty (threshold h : ℚ) :
    (BucketBar.construct threshold h).rendered =
      { above := [], below := [], buckets := [] } :=
  rfl

/-- C4: `BucketBar.update(positions)` recomputes the rendered buckets by
invoking the clusterer on the given positions and the current viewport
height, and the constructor is exactly an update with the empty list. -/
theorem updateInvokesClusterer (threshold h : ℚ) (ps : List AnchorPosition) :
    (BucketBar.update threshold h ps).rendered = computeBuckets threshold ps h ∧
    BucketBar.construct threshold h = BucketBar.update threshold h [] :=
  ⟨rfl, rfl⟩

/-- C10: `onAddTag` returns `false` and leaves the draft's tags unchanged on
an empty or duplicate tag, otherwise returns `true` after appending the tag,
and never introduces a duplicate into a duplicate-free tag list. -/
theorem onAddTagSpec (tags : List String) (newTag : String) :
    (newTag = "" ∨ newTag ∈ tags → onAddTag tags newTag = (false, tags)) ∧
    (newTag ≠ "" → newTag ∉ tags →
      onAddTag tags newTag = (true, tags ++ [newTag])) ∧
    (tags.Nodup → (onAddTag tags newTag).2.Nodup) := by
  refine ⟨?_, ?_, ?_⟩
  · intro hdup
    simp [onAddTag, hdup]
  · intro hne hnm
    simp [onAddTag, hne, hnm]
  · intro hnd
    unfold onAddTag
    split
    · exact hnd
    · rename_i hcond
      push_neg at hcond
      simp [List.nodup_append, hnd, hcond.2]

/-- Witness for C10 on concrete tag lists. -/
theorem onAddTagSpec_witness :
    onAddTag ["a"] "b" = (true, ["a", "b"]) ∧
    onAddTag ["a"] "a" = (false, ["a"]) :=
  ⟨(onAddTagSpec ["a"] "b").2.1 (by decide) (by decide),
   (onAddTagSpec ["a"] "a").1 (Or.inr (by decide))⟩

/-- C9: `getLink` returns the empty string while the links state is `none`;
with a non-null state it raises "Unknown link" when no (truthy) template
exists for the name, raises "Unused parameters" when substitution leaves
params unconsumed, and otherwise returns the substituted URL. -/
theorem getLinkSpec
    (repl : String → List (String × String) → String × List (String × String))
    (st : Option (List (String × String))) (linkName : String)
    (params : List (String × String)) :
    (st = none → getLink repl st linkName params = Except.ok "") ∧
    (∀ links, st = some links →
      links.lookup linkName = none ∨ links.lookup linkName = some "" →
      getLink repl st linkName params =
        Except.error ("Unknown link \"" ++ linkName ++ "\"")) ∧
    (∀ links template, st = some links → links.lookup linkName = some template →
      template ≠ "" → (repl template params).2 ≠ [] →
      getLink repl st linkName params =
        Except.error ("Unused parameters: " ++
          String.intercalate ", " ((repl template params).2.map Prod.fst))) ∧
    (∀ links template, st = some links → links.lookup linkName = some template →
      template ≠ "" → (repl template params).2 = [] →
      getLink repl st linkName params = Except.ok (repl template params).1) := by
  refine ⟨?_, ?_, ?_, ?_⟩
  · rintro rfl
    rfl
  · rintro links rfl (hl | hl)
    · simp [getLink, hl]
    · simp [getLink, hl]
  · rintro links template rfl hl hne hun
    simp [getLink, hl, hne, hun]
  · rintro links template rfl hl hne hun
    simp [getLink, hl, hne, hun]

/-- Witness for C9: a fetched state with one template, identity-style
substitution that consumes no params. -/
theorem getLinkSpec_witness :
    getLink (fun t ps => (t, ps)) (some [("account", "https://example.com/a")])
      "account" [] = Except.ok "https://example.com/a" :=
  (getLinkSpec (fun t ps => (t, ps)) (some [("account", "https://example.com/a")])
      "account" []).2.2.2 [("account", "https://example.com/a")]
    "https://example.com/a" rfl (by decide) (by decide) rfl

/-- C5: the clustering boundary rejects malformed input (an anchor with
`top > bottom`, or a negative viewport height; `NaN` does not exist in the
rational embedding) with a validation error, and on well-formed input it is
total, returning the clustering of the full anchor list unchanged. -/
theorem checkedBoundaryValidation (threshold h : ℚ) (ps : List AnchorPosition) :
    (validInput ps h = true →
      computeBucketsChecked threshold ps h =
        Except.ok (computeBuckets threshold ps h)) ∧
    ((∃ a ∈ ps, a.bottom < a.top) ∨ h < 0 →
      ∃ e, computeBucketsChecked threshold ps h = Except.error e) := by
  constructor
  · intro hv
    simp [computeBucketsChecked, hv]
  · intro hbad
    have hfalse : validInput ps h = false := by
      rcases hbad with ⟨a, ha, hab⟩ | hneg
      · have hall : ps.all validAnchor = false := by
          rw [List.all_eq_false]
          exact ⟨a, ha, by simp [validAnchor, not_le.mpr hab]⟩
        simp [validInput, hall]
      · simp [validInput, not_le.mpr hneg]
    exact ⟨"invalid anchor positions or viewport height",
      by simp [computeBucketsChecked, hfalse]⟩

/-- Witness for C5: a single anchor with `top > bottom` is rejected. -/
theorem checkedBoundaryValidation_witness :
    ∃ e, computeBucketsChecked 60 [⟨["x"], 5, 1⟩] 10 = Except.error e :=
  (checkedBoundaryValidation 60 10 [⟨["x"], 5, 1⟩]).2
    (Or.inl ⟨⟨["x"], 5, 1⟩, by simp, by norm_num⟩)

/-- C6: overflow membership requires strictly `bottom < 0` (above) and
strictly `top > viewportHeight` (below) — so an anchor with `bottom = 0` puts
nothing in `above` and one with `top = viewportHeight` puts nothing in
`below` — while every anchor straddling or touching an edge is treated as
visible: its tags land in a bucket. -/
theorem boundaryInclusionStrict (threshold h : ℚ) (ps : List AnchorPosition) :
    (∀ t ∈ (computeBuckets threshold ps h).above,
      ∃ a ∈ ps, a.bottom < 0 ∧ t ∈ a.tags) ∧
    (∀ t ∈ (computeBuckets threshold ps h).below,
      ∃ a ∈ ps, h < a.top ∧ t ∈ a.tags) ∧
    (∀ a ∈ ps, 0 ≤ a.bottom → a.top ≤ h →
      ∀ t ∈ a.tags, ∃ b ∈ (computeBuckets threshold ps h).buckets, t ∈ b.tags) := by
  refine ⟨?_, ?_, ?_⟩
  · intro t ht
    obtain ⟨a, ha, hoff, hta⟩ := mem_above_iff.mp ht
    exact ⟨a, ha, offscreenAbove_iff.mp hoff, hta⟩
  · intro t ht
    obtain ⟨a, ha, hoff, hta⟩ := mem_below_iff.mp ht
    exact ⟨a, ha, (offscreenBelow_iff.mp hoff).2, hta⟩
  · intro a ha hb htop t ht
    apply mem_bucketTags_iff.mpr
    exact ⟨a, ha, visibleAnchor_iff.mpr ⟨not_lt.mpr hb, htop⟩, ht⟩

/-- Witness for C6: an anchor touching the top edge (`bottom = 0`) ends in a
bucket, and a strictly-below anchor is reported for `below`. -/
theorem boundaryInclusionStrict_witness :
    (∃ b ∈ (computeBuckets 60 [⟨["edge"], -30, 0⟩] 1000).buckets, "edge" ∈ b.tags) ∧
    (∃ a ∈ [(⟨["e"], 1200, 1300⟩ : AnchorPosition)], (1000 : ℚ) < a.top ∧ "e" ∈ a.tags) :=
  ⟨(boundaryInclusionStrict 60 1000 [⟨["edge"], -30, 0⟩]).2.2
      ⟨["edge"], -30, 0⟩ (by simp) (by norm_num) (by norm_num) "edge" (by simp),
   (boundaryInclusionStrict 60 1000 [⟨["e"], 1200, 1300⟩]).2.1 "e"
      (mem_below_iff.mpr ⟨⟨["e"], 1200, 1300⟩, by simp,
        offscreenBelow_iff.mpr ⟨by norm_num, by norm_num⟩, by simp⟩)⟩

/-- C1 (amended): each anchor is routed to exactly one of {a bucket, `above`,
`below`}; per tag this reads: for inputs in which no two anchors share a tag,
every tag of every anchor appears in exactly one destination — and in exactly
one bucket when visible.  (The unrestricted per-tag claim fails when two
anchors share a tag; see the counterexample.) -/
theorem partitionExactlyOnePerAnchor (threshold h : ℚ) (ps : List AnchorPosition)
    (hd : (ps.map AnchorPosition.tags).Pairwise TagsDisjoint)
    (a : AnchorPosition) (ha : a ∈ ps) (t : String) (ht : t ∈ a.tags) :
    (t ∈ (computeBuckets threshold ps h).above ∧
      t ∉ (computeBuckets threshold ps h).below ∧
      ∀ b ∈ (computeBuckets threshold ps h).buckets, t ∉ b.tags) ∨
    (t ∉ (computeBuckets threshold ps h).above ∧
      t ∈ (computeBuckets threshold ps h).below ∧
      ∀ b ∈ (computeBuckets threshold ps h).buckets, t ∉ b.tags) ∨
    (t ∉ (computeBuckets threshold ps h).above ∧
      t ∉ (computeBuckets threshold ps h).below ∧
      ∃ b ∈ (computeBuckets threshold ps h).buckets, t ∈ b.tags ∧
        ∀ b' ∈ (computeBuckets threshold ps h).buckets, t ∈ b'.tags → b' = b) := by
  have hnotAbove : ¬ a.bottom < 0 → t ∉ (computeBuckets threshold ps h).above := by
    intro hup hmem
    obtain ⟨a', ha', hoff', ht'⟩ := mem_above_iff.mp hmem
    obtain rfl := anchor_unique hd ha ha' ht ht'
    exact hup (offscreenAbove_iff.mp hoff')
  have hnotBelow : a.bottom < 0 ∨ a.top ≤ h →
      t ∉ (computeBuckets threshold ps h).below := by
    intro hcond hmem
    obtain ⟨a', ha', hoff', ht'⟩ := mem_below_iff.mp hmem
    obtain rfl := anchor_unique hd ha ha' ht ht'
    rcases hcond with hcond | hcond
    · exact (offscreenBelow_iff.mp hoff').1 hcond
    · exact absurd (offscreenBelow_iff.mp hoff').2 (not_lt.mpr hcond)
  have hnotBuckets : ¬ (¬ a.bottom < 0 ∧ a.top ≤ h) →
      ∀ b ∈ (computeBuckets threshold ps h).buckets, t ∉ b.tags := by
    intro hnv b hb htb
    obtain ⟨a', ha', hvis', ht'⟩ := mem_bucketTags_iff.mp ⟨b, hb, htb⟩
    obtain rfl := anchor_unique hd ha ha' ht ht'
    exact hnv (visibleAnchor_iff.mp hvis')
  by_cases hup : a.bottom < 0
  · refine Or.inl ⟨?_, ?_, ?_⟩
    · exact mem_above_iff.mpr ⟨a, ha, offscreenAbove_iff.mpr hup, ht⟩
    · exact hnotBelow (Or.inl hup)
    · exact hnotBuckets (fun hnv => hnv.1 hup)
  · by_cases hdown : h < a.top
    · refine Or.inr (Or.inl ⟨?_, ?_, ?_⟩)
      · exact hnotAbove hup
      · exact mem_below_iff.mpr ⟨a, ha, offscreenBelow_iff.mpr ⟨hup, hdown⟩, ht⟩
      · exact hnotBuckets (fun hnv => absurd hdown (not_lt.mpr hnv.2))
    · refine Or.inr (Or.inr ⟨hnotAbove hup, hnotBelow (Or.inr (not_lt.mp hdown)), ?_⟩)
      obtain ⟨b, hb, htb⟩ := mem_bucketTags_iff.mpr
        ⟨a, ha, visibleAnchor_iff.mpr ⟨hup, not_lt.mp hdown⟩, ht⟩
      refine ⟨b, hb, htb, ?_⟩
      intro b' hb' htb'
      have hpw := @buckets_pairwise_tagsDisjoint threshold h ps hd
      exact mem_unique_of_pairwise hpw hb' hb
        (fun hdisj => hdisj t htb' htb) (fun hdisj => hdisj t htb htb')

/-- Witness for C1 (amended): a single fully-above anchor carrying tag "a". -/
theorem partitionExactlyOnePerAnchor_witness :
    ("a" ∈ (computeBuckets 60 [⟨["a"], -10, -5⟩] 1000).above ∧
      "a" ∉ (computeBuckets 60 [⟨["a"], -10, -5⟩] 1000).below ∧
      ∀ b ∈ (computeBuckets 60 [⟨["a"], -10, -5⟩] 1000).buckets, "a" ∉ b.tags) ∨
    ("a" ∉ (computeBuckets 60 [⟨["a"], -10, -5⟩] 1000).above ∧
      "a" ∈ (computeBuckets 60 [⟨["a"], -10, -5⟩] 1000).below ∧
      ∀ b ∈ (computeBuckets 60 [⟨["a"], -10, -5⟩] 1000).buckets, "a" ∉ b.tags) ∨
    ("a" ∉ (computeBuckets 60 [⟨["a"], -10, -5⟩] 1000).above ∧
      "a" ∉ (computeBuckets 60 [⟨["a"], -10, -5⟩] 1000).below ∧
      ∃ b ∈ (computeBuckets 60 [⟨["a"], -10, -5⟩] 1000).buckets, "a" ∈ b.tags ∧
        ∀ b' ∈ (computeBuckets 60 [⟨["a"], -10, -5⟩] 1000).buckets,
          "a" ∈ b'.tags → b' = b) :=
  partitionExactlyOnePerAnchor 60 1000 [⟨["a"], -10, -5⟩] (by simp)
    ⟨["a"], -10, -5⟩ (by simp) "a" (by simp)

/-- C1 counterexample: two anchors share tag "x", one fully above and one
visible; the tag then appears both in `above` and in a bucket, so it does not
appear in exactly one destination. -/
theorem partitionSharedTag_cex :
    "x" ∈ (computeBuckets 60 [⟨["x"], -10, -5⟩, ⟨["x"], 10, 20⟩] 1000).above ∧
    ∃ b ∈ (computeBuckets 60 [⟨["x"], -10, -5⟩, ⟨["x"], 10, 20⟩] 1000).buckets,
      "x" ∈ b.tags :=
  ⟨mem_above_iff.mpr ⟨⟨["x"], -10, -5⟩, by simp,
      offscreenAbove_iff.mpr (by norm_num), by simp⟩,
   mem_bucketTags_iff.mpr ⟨⟨["x"], 10, 20⟩, by simp,
      visibleAnchor_iff.mpr (by norm_num), by simp⟩⟩

/-- C2 (amended): in the greedy left-to-right sweep, an anchor merges with
the current open bucket exactly when its `top` lies within the threshold of
the bucket's running representative position (the midpoint of its minimum
`top` and maximum `bottom`), not when its `top` is close to the previous
anchor's `top`; stated on a two-anchor input.  (The counterexample shows the
top-distance version of the claim fails.) -/
theorem thresholdMergeRule (threshold h : ℚ) (a b : AnchorPosition)
    (hva : visibleAnchor h a = true) (hvb : visibleAnchor h b = true)
    (hab : a.top ≤ b.top) :
    (|b.top - bucketPos (openBucket a)| < threshold →
      (computeBuckets threshold [a, b] h).buckets =
        [closeBucket (mergeAnchor (openBucket a) b)]) ∧
    (threshold ≤ |b.top - bucketPos (openBucket a)| →
      (computeBuckets threshold [a, b] h).buckets =
        [closeBucket (openBucket a), closeBucket (openBucket b)]) := by
  have hfil : [a, b].filter (visibleAnchor h) = [a, b] := by
    simp [List.filter_cons, hva, hvb]
  have hsort : sortByTop [a, b] = [a, b] := by
    simp [sortByTop, insertByTop, hab]
  have hbk : (computeBuckets threshold [a, b] h).buckets =
      (sweepFrom threshold (openBucket a) [b]).map closeBucket := by
    show (sweepWB threshold (sortByTop ([a, b].filter (visibleAnchor h)))).map
        closeBucket = _
    rw [hfil, hsort]
    rfl
  constructor
  · intro hlt
    rw [hbk, sweepFrom, if_pos (by simp [canMerge, hlt])]
    rfl
  · intro hge
    rw [hbk, sweepFrom, if_neg (by simp [canMerge, not_lt.mpr hge])]
    rfl

/-- Witness for C2 (amended): the spec §8 pair B(100,120), C(125,140) with
threshold 60 merges into one bucket. -/
theorem thresholdMergeRule_witness :
    (computeBuckets 60 [⟨["b"], 100, 120⟩, ⟨["c"], 125, 140⟩] 1000).buckets =
      [closeBucket (mergeAnchor (openBucket ⟨["b"], 100, 120⟩) ⟨["c"], 125, 140⟩)] :=
  (thresholdMergeRule 60 1000 ⟨["b"], 100, 120⟩ ⟨["c"], 125, 140⟩
      (by norm_num [visibleAnchor, offscreenAbove])
      (by norm_num [visibleAnchor, offscreenAbove])
      (by norm_num)).1
    (by norm_num [bucketPos, openBucket, abs_lt])

/-- C2 counterexample: visible anchors A(top 0, bottom 1000) and
B(top 10, bottom 10) have tops differing by 10 < 60 with no anchor between
them, yet they land in different buckets: the merge test compares B's top
with A's bucket's running representative midpoint 500, not with A's top. -/
theorem thresholdTopDistance_cex :
    |(10 : ℚ) - 0| < 60 ∧
    (computeBuckets 60 [⟨["a"], 0, 1000⟩, ⟨["b"], 10, 10⟩] 1000).buckets =
      [⟨500, ["a"]⟩, ⟨10, ["b"]⟩] := by
  constructor
  · norm_num
  · norm_num [computeBuckets, sweepWB, sweepFrom, canMerge, bucketPos, openBucket,
      mergeAnchor, closeBucket, sortByTop, insertByTop, List.filter_cons,
      visibleAnchor, offscreenAbove, addTags, addTag, abs_lt]

/-- C3 (amended): the visible candidates are processed as a stable sort by
`top` ascending (a permutation, sorted, with ties kept in input order), and
the buckets are emitted in sweep order, which is non-decreasing in each
bucket's minimum anchor `top`.  (The counterexample shows the representative
`position`s themselves need not be non-decreasing.) -/
theorem bucketEmissionOrder (threshold h : ℚ) (ps : List AnchorPosition) :
    (sortByTop (ps.filter (visibleAnchor h))).Perm (ps.filter (visibleAnchor h)) ∧
    (sortByTop (ps.filter (visibleAnchor h))).Pairwise (fun x y => x.top ≤ y.top) ∧
    (∀ q : ℚ, (sortByTop (ps.filter (visibleAnchor h))).filter
        (fun x => decide (x.top = q)) =
      (ps.filter (visibleAnchor h)).filter (fun x => decide (x.top = q))) ∧
    (computeBuckets threshold ps h).buckets =
      (sweepWB threshold (sortByTop (ps.filter (visibleAnchor h)))).map closeBucket ∧
    ((sweepWB threshold (sortByTop (ps.filter (visibleAnchor h)))).map
        WorkingBucket.minTop).Pairwise (fun p q => p ≤ q) :=
  ⟨sortByTop_perm _, sortByTop_sorted _, fun q => sortByTop_filter_top _ q, rfl,
    minTop_sorted_sweepWB (sortByTop_sorted _)⟩

/-- C3 counterexample: a tall visible anchor A(0,10000) followed by B(100,100)
yields buckets at positions 5000 then 100 — the returned bucket list is not in
non-decreasing `position` order. -/
theorem bucketPositionOrder_cex :
    ¬ ((computeBuckets 60 [⟨["a"], 0, 10000⟩, ⟨["b"], 100, 100⟩] 1000).buckets.map
        Bucket.position).Pairwise (fun p q => p ≤ q) := by
  have hval : (computeBuckets 60 [⟨["a"], 0, 10000⟩, ⟨["b"], 100, 100⟩] 1000).buckets =
      [⟨5000, ["a"]⟩, ⟨100, ["b"]⟩] := by
    norm_num [computeBuckets, sweepWB, sweepFrom, canMerge, bucketPos, openBucket,
      mergeAnchor, closeBucket, sortByTop, insertByTop, List.filter_cons,
      visibleAnchor, offscreenAbove, addTags, addTag, abs_lt]
  rw [hval]
  intro hpw
  simp only [List.map_cons, List.map_nil, List.pairwise_cons] at hpw
  have := hpw.1 ((⟨100, ["b"]⟩ : Bucket).position) (by simp)
  norm_num at this
